import Mathlib

/-!
A verification development for the `Log` facility declared in
`src/common/log.h` of the duckstation repository.

What is present in the header (and therefore embedded directly from the
source) is: the `Level` enumeration with its declaration order, the
`FastWrite` inline guards (`if (level <= GetLogLevel())` followed by a call
to `Write`/`WriteFmtArgs`), and the logging macros
(`ERROR_LOG` .. `DEV_LOG`, and `DEBUG_LOG`/`TRACE_LOG` which compile to
empty statements without `_DEBUG`).

The bodies of `Write`, `WriteFmtArgs`, `IsLogVisible`, the channel filter
and the sink registry are only declared in the header; those parts are
modelled from the specification and carry a `Modelled from the spec:`
doc comment.
-/

namespace Log

/-- The `Log::Level` enumeration from `log.h`, in declaration order:
`None, Error, Warning, Info, Verbose, Dev, Debug, Trace, Count`. -/
inductive Level where
  | none
  | error
  | warning
  | info
  | verbose
  | dev
  | debug
  | trace
  | count
deriving DecidableEq, Fintype

/-- The underlying integral value of a `Log::Level` enumerator: C++ assigns
consecutive values starting at 0 in declaration order. -/
def Level.ordinal : Level → Nat
  | .none => 0
  | .error => 1
  | .warning => 2
  | .info => 3
  | .verbose => 4
  | .dev => 5
  | .debug => 6
  | .trace => 7
  | .count => 8

/-- The C++ comparison `level <= GetLogLevel()` on `enum class Level`
compares the underlying integral values. -/
def Level.cppLE (a b : Level) : Bool := a.ordinal ≤ b.ordinal

/-- The total order as spelled out by the spec, as a chain of levels:
`None < Error < Warning < Info < Verbose < Dev < Debug < Trace`.
A level's position in this chain is its spec-side ordinal. -/
def specChain : List Level :=
  [Level.none, Level.error, Level.warning, Level.info,
   Level.verbose, Level.dev, Level.debug, Level.trace]

/-- The spec-side comparison: `a ≤ b` in the chain order listed by the spec
(position of `a` in the chain at most the position of `b`). -/
def specLe (a b : Level) : Prop := specChain.indexOf a ≤ specChain.indexOf b

instance (a b : Level) : Decidable (specLe a b) := by
  unfold specLe
  infer_instance

/-- Identity of a sink: the three built-in singleton sinks, plus callback
sinks identified by the (function pointer, user context pointer) pair.
Pointers are modelled as natural numbers (addresses). -/
inductive SinkId where
  | console
  | debugConsole
  | file
  | callback (fn : Nat) (userParam : Nat)
deriving DecidableEq

/-- Modelled from the spec: a sink registry entry — "a named output target
with an enabled flag" (§3).  `failsWrite` models the environment fact that
this sink's write operation fails (disk full, console detached, §7); it is
an input to the model, not logging state the code maintains. -/
structure SinkEntry where
  sid : SinkId
  enabled : Bool
  failsWrite : Bool
deriving DecidableEq

/-- Modelled from the spec: the process-wide logging state — global
threshold, channel filter pattern, and the sink registry in registration
order (§3, §4.4).  The bodies of the configuration and dispatch functions
are not present in `log.h` (declarations only). -/
structure LogState where
  logLevel : Level
  filter : String
  sinks : List SinkEntry
deriving DecidableEq

/-- `SetLogLevel` from `log.h`: "Sets global filtering level, messages
below this level won't be sent to any of the logging sinks." -/
def SetLogLevel (st : LogState) (lvl : Level) : LogState :=
  { st with logLevel := lvl }

/-- `SetLogFilter` from `log.h`: replaces the channel filter wholesale. -/
def SetLogFilter (st : LogState) (f : String) : LogState :=
  { st with filter := f }

/-- Modelled from the spec: the channel-filter predicate of §4.3.  The
empty/unset pattern matches everything; for a non-empty pattern the
matching semantics are left open by the spec ("implementation may choose
substring, prefix, or glob semantics"), so this model picks the
recommended minimal contract of exact match. -/
def filterAllows (pattern ch : String) : Bool :=
  pattern.isEmpty || pattern == ch

/-- Modelled from the spec: `IsLogVisible` (declared in `log.h`) performs
both the severity check against the global threshold and the channel
filter check, without dispatching (§4.5). -/
def IsLogVisible (st : LogState) (lvl : Level) (ch : String) : Bool :=
  Level.cppLE lvl st.logLevel && filterAllows st.filter ch

/-- Modelled from the spec: the ephemeral message record of §3 — channel
name, optional function name, severity, formatted text.  (The elapsed
process time field is supplied by an external time-source collaborator
and is not needed by any claim.) -/
structure Record where
  channel : String
  functionName : Option String
  level : Level
  text : String
deriving DecidableEq

/-- One delivery of a record to one sink.  `succeeded` is false when that
sink's write failed; the failure is swallowed locally (§7). -/
structure Delivery where
  sid : SinkId
  record : Record
  succeeded : Bool
deriving DecidableEq

/-- A sink-level write error, carrying the identity of the failing sink. -/
structure SinkError where
  sid : SinkId
deriving DecidableEq

/-- Modelled from the spec: attempting to write a record to one sink; the
write can fail (disk full, console detached, §7). -/
def attemptWrite (s : SinkEntry) (r : Record) : Except SinkError Record :=
  if s.failsWrite then Except.error ⟨s.sid⟩ else Except.ok r

/-- Modelled from the spec: `dispatch(record)` of §4.4 — push the fully
formatted record to every enabled sink in registration order; one sink's
failure is swallowed locally and must not prevent delivery to the
remaining sinks (§7). -/
def dispatchE (sinks : List SinkEntry) (r : Record) :
    Except SinkError (List Delivery) :=
  match sinks with
  | [] => Except.ok []
  | s :: rest =>
    if s.enabled then
      match attemptWrite s r, dispatchE rest r with
      | Except.ok _, Except.ok ds => Except.ok (⟨s.sid, r, true⟩ :: ds)
      | Except.error _, Except.ok ds => Except.ok (⟨s.sid, r, false⟩ :: ds)
      | _, Except.error e => Except.error e
    else dispatchE rest r

/-- The spec's description of dispatch, written directly from its words:
the record goes to every enabled sink, in registration order, exactly
once, whether or not that sink's write will succeed. -/
def deliverList (sinks : List SinkEntry) (r : Record) : List Delivery :=
  (sinks.filter (fun s => s.enabled)).map (fun s => ⟨s.sid, r, !s.failsWrite⟩)

/-- Modelled from the spec: the external formatting collaborator
("format string + argument list → string", §1); a concrete stand-in whose
exact output is irrelevant to every claim. -/
def formatCollab (fmtStr : String) (args : List String) : String :=
  String.intercalate "" (fmtStr :: args)

/-- Modelled from the spec: `Write` (declared in `log.h`) — the Dispatcher
pipeline of §4.5 for a pre-formatted message: severity check, channel
check, then hand the record to the sink registry.  Mutates no state and
returns no error to the caller; sink errors are swallowed inside
dispatch. -/
def Write (st : LogState) (ch : String) (fn : Option String) (lvl : Level)
    (msg : String) : Except SinkError (List Delivery) :=
  if IsLogVisible st lvl ch then
    dispatchE st.sinks ⟨ch, fn, lvl, msg⟩
  else
    Except.ok []

/-- Modelled from the spec: `WriteFmtArgs` (declared in `log.h`) — the
same pipeline, formatting the template with the arguments via the
external collaborator only after the visibility checks pass (§4.5). -/
def WriteFmtArgs (st : LogState) (ch : String) (fn : Option String)
    (lvl : Level) (fmtStr : String) (args : List String) :
    Except SinkError (List Delivery) :=
  if IsLogVisible st lvl ch then
    dispatchE st.sinks ⟨ch, fn, lvl, formatCollab fmtStr args⟩
  else
    Except.ok []

/-- `Log::FastWrite` from `log.h` (pre-formatted overload): if
`level <= GetLogLevel()` the message is handed to `Write`, otherwise
nothing further happens.  `Option.some` marks that the call proceeded
past the fast-path guard to `Write`; `Option.none` marks rejection. -/
def FastWrite (st : LogState) (ch : String) (lvl : Level) (msg : String) :
    Option (Except SinkError (List Delivery)) :=
  if Level.cppLE lvl st.logLevel then
    Option.some (Write st ch Option.none lvl msg)
  else
    Option.none

/-- `RegisterCallback` from `log.h`, modelled from the spec for its body:
adds a callback sink identified by the (function, user context) pair;
duplicate registration is de-duplicated by identity (§4.4 recommended
contract). -/
def RegisterCallback (st : LogState) (fn userParam : Nat) : LogState :=
  if st.sinks.any (fun s => s.sid == SinkId.callback fn userParam) then st
  else { st with sinks := st.sinks ++ [⟨SinkId.callback fn userParam, true, false⟩] }

/-- `UnregisterCallback` from `log.h`, modelled from the spec for its
body: removes the callback sink with that identity; no-op if absent
(§4.4). -/
def UnregisterCallback (st : LogState) (fn userParam : Nat) : LogState :=
  { st with sinks := st.sinks.filter (fun s => !(s.sid == SinkId.callback fn userParam)) }

/-- Outcome of one formatted logging call site: whether the
argument-producing expression was evaluated, whether the external
formatting collaborator ran, and what dispatch returned (rejected calls
return `Except.ok []`, i.e. no sink output). -/
structure FmtCallOutcome where
  argEvaluated : Bool
  formatterInvoked : Bool
  result : Except SinkError (List Delivery)

/-- The formatted-call site semantics of `log.h`: a macro such as
`ERROR_LOG(...)` expands to the plain function call
`Log::FastWrite(channel, [func,] Level::X, __VA_ARGS__)`, and C++
evaluates a function call's argument expressions before the callee's body
runs — so the argument-producing expression (`argExpr`, modelled as a
thunk) is forced before the guard `level <= GetLogLevel()` inside
`FastWrite` is tested.  Only `fmt::make_format_args`/`WriteFmtArgs`
(formatting) and dispatch are behind the guard. -/
def fastWriteFmtCall (st : LogState) (ch : String) (fn : Option String)
    (lvl : Level) (fmtStr : String) (argExpr : Unit → String) : FmtCallOutcome :=
  let argVal := argExpr ()
  if Level.cppLE lvl st.logLevel then
    { argEvaluated := true
      formatterInvoked := IsLogVisible st lvl ch
      result := WriteFmtArgs st ch fn lvl fmtStr [argVal] }
  else
    { argEvaluated := true
      formatterInvoked := false
      result := Except.ok [] }

/-- `DEBUG_LOG` from `log.h`: with `_DEBUG` defined it expands to
`Log::FastWrite(___LogChannel___, Log::Level::Debug, __VA_ARGS__)`;
without `_DEBUG` it expands to the empty statement `do { } while (0)`,
which discards `__VA_ARGS__` entirely — nothing is evaluated and nothing
runs. -/
def debugLogCall (debugBuild : Bool) (st : LogState) (ch : String)
    (fmtStr : String) (argExpr : Unit → String) : FmtCallOutcome :=
  if debugBuild then fastWriteFmtCall st ch Option.none Level.debug fmtStr argExpr
  else { argEvaluated := false, formatterInvoked := false, result := Except.ok [] }

/-- `TRACE_LOG` from `log.h`: same shape as `DEBUG_LOG`, at
`Log::Level::Trace`. -/
def traceLogCall (debugBuild : Bool) (st : LogState) (ch : String)
    (fmtStr : String) (argExpr : Unit → String) : FmtCallOutcome :=
  if debugBuild then fastWriteFmtCall st ch Option.none Level.trace fmtStr argExpr
  else { argEvaluated := false, formatterInvoked := false, result := Except.ok [] }

/-- Modelled from the spec: an interleaving of per-thread message
sequences (§5).  Each step picks some thread whose queue is non-empty and
emits its next message; per-thread order is preserved, cross-thread
interleaving is arbitrary.  The registry's single serialization point
makes each emission atomic. -/
inductive Interleaving {α : Type} : List (List α) → List α → Prop where
  | nil : ∀ ts : List (List α), (∀ t ∈ ts, t = []) → Interleaving ts []
  | step : ∀ (ts : List (List α)) (i : Nat) (x : α) (rest : List α) (out : List α),
      ts.get? i = Option.some (x :: rest) →
      Interleaving (ts.set i rest) out →
      Interleaving ts (x :: out)

/-- Modelled from the spec: the cumulative record stream produced by a
sequence of `write` calls processed through the serialized dispatch point
— each visible message contributes exactly one record, rejected messages
contribute none (§4.5, §5). -/
def emitAll (st : LogState) (msgs : List Record) : List Record :=
  msgs.filterMap (fun m =>
    if IsLogVisible st m.level m.channel then Option.some m else Option.none)

/-- A concrete state with threshold `Error`, empty filter and one enabled
console sink, used by concrete instantiations below. -/
def stThresholdError : LogState :=
  ⟨Level.error, "", [⟨SinkId.console, true, false⟩]⟩

/-- A concrete state in which everything is visible (threshold `Trace`,
empty filter). -/
def stAllVisible : LogState := ⟨Level.trace, "", [⟨SinkId.console, true, false⟩]⟩

/-- A concrete error-severity record on channel `Net`. -/
def recNetA : Record := ⟨"Net", Option.none, Level.error, "a"⟩

/-- A second concrete error-severity record on channel `Net`. -/
def recNetB : Record := ⟨"Net", Option.none, Level.error, "b"⟩

theorem cppLE_none_left : ∀ b : Level, Level.cppLE Level.none b = true := by
  intro b
  cases b <;> rfl

theorem cppLE_none_right : ∀ l : Level, l ≠ Level.none →
    Level.cppLE l Level.none = false := by
  intro l h
  cases l
  · exact absurd rfl h
  all_goals rfl

theorem cppLE_iff_specLe : ∀ a b : Level, Level.cppLE a b = true ↔ specLe a b := by
  decide

/-- C1: for every message severity S and threshold T, a logging call
proceeds past the fast-path guard in `Log::FastWrite` to `Write` (is
visible) if and only if the ordinal of S is at most the ordinal of T under
the spec's total order `None < Error < Warning < Info < Verbose < Dev <
Debug < Trace`. -/
theorem fastWrite_visible_iff_spec_order :
    ∀ (st : LogState) (ch : String) (lvl : Level) (msg : String),
      (FastWrite st ch lvl msg).isSome = true ↔ specLe lvl st.logLevel := by
  intro st ch lvl msg
  rw [← cppLE_iff_specLe]
  unfold FastWrite
  cases h : Level.cppLE lvl st.logLevel <;> simp [h]

/-- C9: a `FastWrite` call with message severity `Level::None` always
passes the fast-path guard and is handed to `Write`, for every current
threshold value including `None`, because `None` has ordinal 0 and the
guard tests `level <= GetLogLevel()`. -/
theorem fastWrite_none_level_always_dispatches :
    ∀ (st : LogState) (ch msg : String),
      FastWrite st ch Level.none msg =
        Option.some (Write st ch Option.none Level.none msg) := by
  intro st ch msg
  simp [FastWrite, cppLE_none_left]

/-- C3: after `SetLogLevel(None)`, every subsequent logging call with a
message severity (which, per the spec's data model, is never `None`)
fails the fast-path guard and produces no sink output, until the
threshold state is changed again. -/
theorem setLogLevel_none_suppresses_all :
    ∀ (st : LogState) (ch : String) (lvl : Level) (msg : String),
      lvl ≠ Level.none →
      FastWrite (SetLogLevel st Level.none) ch lvl msg = Option.none := by
  intro st ch lvl msg h
  simp [FastWrite, SetLogLevel, cppLE_none_right lvl h]

/-- Witness for C3 at a concrete state and call. -/
theorem setLogLevel_none_suppresses_all_witness :
    FastWrite (SetLogLevel stAllVisible Level.none) "Net" Level.error "m" =
      Option.none :=
  setLogLevel_none_suppresses_all stAllVisible "Net" Level.error "m" (by decide)

/-- C2 counterexample: at threshold `Error`, a formatted call at severity
`Info` fails the fast-path check, yet its argument-producing expression
is evaluated — the macros expand to a plain call of `Log::FastWrite`,
whose arguments C++ evaluates before the guard in the body runs.  This
refutes "the argument-producing expressions of the call are never
evaluated" on the reject path. -/
theorem fastWriteFmtCall_evaluates_arg_on_reject :
    Level.cppLE Level.info stThresholdError.logLevel = false ∧
    (fastWriteFmtCall stThresholdError "Net" Option.none Level.info "x{}"
        (fun _ => "expensive")).argEvaluated = true :=
  ⟨rfl, rfl⟩

/-- C2 (amended): when the fast-path severity check fails, the call
produces no sink output and the external formatting collaborator is not
invoked, but the argument-producing expressions of the call are
evaluated (C++ function-call semantics evaluate the arguments of
`Log::FastWrite` before its in-body guard). -/
theorem fastWriteFmtCall_reject_no_output_no_formatting :
    ∀ (st : LogState) (ch : String) (fn : Option String) (lvl : Level)
      (fmtStr : String) (argExpr : Unit → String),
      Level.cppLE lvl st.logLevel = false →
      fastWriteFmtCall st ch fn lvl fmtStr argExpr =
        { argEvaluated := true, formatterInvoked := false,
          result := Except.ok [] } := by
  intro st ch fn lvl fmtStr argExpr h
  simp [fastWriteFmtCall, h]

/-- Witness for the amended C2 at a concrete rejected call. -/
theorem fastWriteFmtCall_reject_no_output_witness :
    fastWriteFmtCall stThresholdError "Net" Option.none Level.verbose "y{}"
        (fun _ => "arg") =
      { argEvaluated := true, formatterInvoked := false,
        result := Except.ok [] } :=
  fastWriteFmtCall_reject_no_output_no_formatting stThresholdError "Net"
    Option.none Level.verbose "y{}" (fun _ => "arg") (by decide)

/-- C10: without `_DEBUG`, `DEBUG_LOG`/`TRACE_LOG` expand to empty
statements — for every threshold, filter and sink configuration, no
argument is evaluated and no output is produced; with `_DEBUG`, they
forward to `FastWrite` at `Debug`/`Trace` severity. -/
theorem debug_trace_log_macro_build_behavior :
    ∀ (st : LogState) (ch fmtStr : String) (argExpr : Unit → String),
      debugLogCall false st ch fmtStr argExpr =
        { argEvaluated := false, formatterInvoked := false,
          result := Except.ok [] } ∧
      traceLogCall false st ch fmtStr argExpr =
        { argEvaluated := false, formatterInvoked := false,
          result := Except.ok [] } ∧
      debugLogCall true st ch fmtStr argExpr =
        fastWriteFmtCall st ch Option.none Level.debug fmtStr argExpr ∧
      traceLogCall true st ch fmtStr argExpr =
        fastWriteFmtCall st ch Option.none Level.trace fmtStr argExpr := by
  intro st ch fmtStr argExpr
  exact ⟨rfl, rfl, rfl, rfl⟩

theorem filter_self_idem {α : Type} (p : α → Bool) (l : List α) :
    (l.filter p).filter p = l.filter p := by
  induction l with
  | nil => rfl
  | cons a t ih =>
    cases h : p a <;> simp [List.filter_cons, h, ih]

/-- C5: unregistering a (callback, user context) pair that is not
currently registered leaves the sink set unchanged, and unregistering
twice equals unregistering once. -/
theorem unregisterCallback_idempotent_and_noop :
    ∀ (st : LogState) (fn up : Nat),
      UnregisterCallback (UnregisterCallback st fn up) fn up =
        UnregisterCallback st fn up ∧
      ((∀ s ∈ st.sinks, s.sid ≠ SinkId.callback fn up) →
        UnregisterCallback st fn up = st) := by
  intro st fn up
  constructor
  · unfold UnregisterCallback
    simp only
    rw [filter_self_idem]
  · intro habs
    unfold UnregisterCallback
    have : st.sinks.filter
        (fun s => !(s.sid == SinkId.callback fn up)) = st.sinks := by
      rw [List.filter_eq_self]
      intro s hs
      simpa using habs s hs
    rw [this]

/-- Witness for C5: unregistering a never-registered callback from a
concrete state is a no-op (and hence so is doing it twice). -/
theorem unregisterCallback_noop_witness :
    UnregisterCallback stThresholdError 1 2 = stThresholdError :=
  (unregisterCallback_idempotent_and_noop stThresholdError 1 2).2 (by decide)

theorem dispatchE_eq_deliverList :
    ∀ (sinks : List SinkEntry) (r : Record),
      dispatchE sinks r = Except.ok (deliverList sinks r) := by
  intro sinks r
  induction sinks with
  | nil => rfl
  | cons s rest ih =>
    cases he : s.enabled <;> cases hf : s.failsWrite <;>
      simp [dispatchE, deliverList, attemptWrite, List.filter_cons, he, hf, ih]

/-- C6: the logging entry points `Write` and `WriteFmtArgs` never signal
failure to their caller — for every state (including states with failing
sinks, a file sink left disabled by an open failure, or an arbitrary
filter string) and every call, the result is `Except.ok`; sink write
errors are swallowed inside dispatch. -/
theorem write_never_signals_failure :
    ∀ (st : LogState) (ch : String) (fn : Option String) (lvl : Level)
      (msg fmtStr : String) (args : List String),
      (∃ ds, Write st ch fn lvl msg = Except.ok ds) ∧
      (∃ ds, WriteFmtArgs st ch fn lvl fmtStr args = Except.ok ds) := by
  intro st ch fn lvl msg fmtStr args
  constructor
  · unfold Write
    cases hv : IsLogVisible st lvl ch
    · exact ⟨[], by simp⟩
    · exact ⟨deliverList st.sinks ⟨ch, fn, lvl, msg⟩, by
        simp [dispatchE_eq_deliverList]⟩
  · unfold WriteFmtArgs
    cases hv : IsLogVisible st lvl ch
    · exact ⟨[], by simp⟩
    · exact ⟨deliverList st.sinks ⟨ch, fn, lvl, formatCollab fmtStr args⟩, by
        simp [dispatchE_eq_deliverList]⟩

/-- C7: dispatch delivers the record exactly once to every currently
enabled sink, in registration order (the delivered sink identities equal
the enabled sinks' identities, as lists), with no delivery to disabled
sinks or to sinks not in the registry; and the set of sinks receiving the
record does not depend on any sink's write-failure flag, so one sink's
failure does not prevent delivery to the remaining sinks. -/
theorem dispatch_exactly_once_in_registration_order :
    ∀ (sinks : List SinkEntry) (r : Record),
      dispatchE sinks r = Except.ok (deliverList sinks r) ∧
      (deliverList sinks r).map Delivery.sid =
        (sinks.filter (fun s => s.enabled)).map SinkEntry.sid ∧
      (deliverList sinks r).map Delivery.record =
        (sinks.filter (fun s => s.enabled)).map (fun _ => r) ∧
      (deliverList sinks r).map Delivery.sid =
        (deliverList (sinks.map (fun s => { s with failsWrite := false })) r).map
          Delivery.sid := by
  intro sinks r
  refine ⟨dispatchE_eq_deliverList sinks r, ?_, ?_, ?_⟩
  · simp [deliverList, List.map_map]
  · unfold deliverList
    rw [List.map_map]
    rfl
  · simp only [deliverList, List.map_map, List.filter_map]
    congr 1

theorem filterAllows_empty : ∀ ch : String, filterAllows "" ch = true := by
  intro ch
  rfl

/-- C4: when the channel filter pattern is empty, every channel name is
allowed — visibility reduces to the severity check alone (so no message
is suppressed on account of its channel), and for every severity at or
below the threshold `IsLogVisible` returns true and `Write` hands the
record to dispatch. -/
theorem empty_filter_allows_every_channel :
    ∀ (st : LogState) (lvl : Level) (ch ch2 msg : String),
      st.filter = "" →
      (IsLogVisible st lvl ch = Level.cppLE lvl st.logLevel ∧
       IsLogVisible st lvl ch = IsLogVisible st lvl ch2 ∧
       (Level.cppLE lvl st.logLevel = true →
         IsLogVisible st lvl ch = true ∧
         Write st ch Option.none lvl msg =
           dispatchE st.sinks ⟨ch, Option.none, lvl, msg⟩)) := by
  intro st lvl ch ch2 msg hf
  have hallow : ∀ c : String, filterAllows st.filter c = true := by
    intro c
    rw [hf]
    exact filterAllows_empty c
  refine ⟨?_, ?_, ?_⟩
  · simp [IsLogVisible, hallow]
  · simp [IsLogVisible, hallow]
  · intro hsev
    constructor
    · simp [IsLogVisible, hallow, hsev]
    · simp [Write, IsLogVisible, hallow, hsev]

/-- Witness for C4: with an empty filter and threshold `Error`, an
`Error`-severity message on an arbitrary channel is visible and
dispatched. -/
theorem empty_filter_allows_every_channel_witness :
    IsLogVisible stThresholdError Level.error "AnyChannel" = true ∧
    Write stThresholdError "AnyChannel" Option.none Level.error "m" =
      dispatchE stThresholdError.sinks
        ⟨"AnyChannel", Option.none, Level.error, "m"⟩ :=
  (empty_filter_allows_every_channel stThresholdError Level.error
    "AnyChannel" "Other" "m" rfl).2.2 (by decide)

theorem multiset_sum_set {α : Type} :
    ∀ (ts : List (List α)) (i : Nat) (x : α) (rest : List α),
      ts.get? i = Option.some (x :: rest) →
      (ts.map Multiset.ofList).sum =
        x ::ₘ ((ts.set i rest).map Multiset.ofList).sum := by
  intro ts
  induction ts with
  | nil =>
    intro i x rest h
    simp at h
  | cons hd tl ih =>
    intro i x rest h
    cases i with
    | zero =>
      simp at h
      subst h
      simp only [List.set_cons_zero, List.map_cons, List.sum_cons]
      rw [← Multiset.cons_coe, Multiset.cons_add]
    | succ n =>
      simp only [List.get?_cons_succ] at h
      simp only [List.set_cons_succ, List.map_cons, List.sum_cons]
      rw [ih n x rest h, Multiset.add_cons]

theorem interleaving_multiset {α : Type} :
    ∀ (ts : List (List α)) (L : List α), Interleaving ts L →
      Multiset.ofList L = (ts.map Multiset.ofList).sum := by
  intro ts L h
  induction h with
  | nil ts2 hall =>
    rw [show Multiset.ofList ([] : List α) = 0 from rfl]
    symm
    apply List.sum_eq_zero
    intro y hy
    obtain ⟨t, ht, hteq⟩ := List.mem_map.mp hy
    rw [← hteq, hall t ht]
    rfl
  | step ts2 i x rest out hget hrec ih =>
    rw [← Multiset.cons_coe, ih, multiset_sum_set ts2 i x rest hget]

theorem interleaving_mem {α : Type} :
    ∀ (ts : List (List α)) (L : List α), Interleaving ts L →
      ∀ m ∈ L, ∃ t, t ∈ ts ∧ m ∈ t := by
  intro ts L h
  induction h with
  | nil ts2 hall =>
    intro m hm
    simp at hm
  | step ts2 i x rest out hget hrec ih =>
    intro m hm
    rcases List.mem_cons.mp hm with hmx | hmo
    · refine ⟨x :: rest, List.get?_mem hget, ?_⟩
      rw [hmx]
      exact List.mem_cons_self x rest
    · obtain ⟨t, htset, hmt⟩ := ih m hmo
      rcases List.mem_or_eq_of_mem_set htset with hin | heq
      · exact ⟨t, hin, hmt⟩
      · refine ⟨x :: rest, List.get?_mem hget, ?_⟩
        rw [heq] at hmt
        exact List.mem_cons_of_mem x hmt

theorem multiset_card_sum_lengths {α : Type} :
    ∀ ts : List (List α),
      Multiset.card (ts.map Multiset.ofList).sum =
        (ts.map List.length).sum := by
  intro ts
  induction ts with
  | nil => rfl
  | cons hd tl ih => simp [ih]

theorem sum_lengths_const {α : Type} :
    ∀ (ts : List (List α)) (M : Nat),
      (∀ t ∈ ts, t.length = M) → (ts.map List.length).sum = ts.length * M := by
  intro ts M h
  induction ts with
  | nil => simp
  | cons hd tl ih =>
    have hhd := h hd (List.mem_cons_self hd tl)
    have htl := ih (fun t ht => h t (List.mem_cons_of_mem hd ht))
    simp only [List.map_cons, List.sum_cons, List.length_cons, hhd, htl]
    rw [Nat.succ_mul, Nat.add_comm]

theorem emitAll_all_visible :
    ∀ (st : LogState) (L : List Record),
      (∀ m ∈ L, IsLogVisible st m.level m.channel = true) →
      emitAll st L = L := by
  intro st L h
  induction L with
  | nil => rfl
  | cons a t ih =>
    have ha := h a (List.mem_cons_self a t)
    have ht := ih (fun m hm => h m (List.mem_cons_of_mem a hm))
    simp only [emitAll, List.filterMap_cons, ha, if_pos]
    simp only [emitAll] at ht
    rw [ht]

/-- C8: for every N and M, when N producer threads each emit M visible
messages and the calls interleave arbitrarily through the serialized
dispatch point, exactly N×M records accumulate — no message is lost or
duplicated (the record multiset equals the union of the per-thread
multisets), while the interleaving order is unconstrained. -/
theorem concurrent_interleaving_exact_count :
    ∀ (st : LogState) (threads : List (List Record)) (N M : Nat)
      (L : List Record),
      threads.length = N →
      (∀ t ∈ threads, t.length = M) →
      (∀ t ∈ threads, ∀ m ∈ t, IsLogVisible st m.level m.channel = true) →
      Interleaving threads L →
      ((emitAll st L).length = N * M ∧
       Multiset.ofList (emitAll st L) =
         (threads.map Multiset.ofList).sum) := by
  intro st threads N M L hN hM hvis hint
  have hvisL : ∀ m ∈ L, IsLogVisible st m.level m.channel = true := by
    intro m hm
    obtain ⟨t, ht, hmt⟩ := interleaving_mem threads L hint m hm
    exact hvis t ht m hmt
  have hemit : emitAll st L = L := emitAll_all_visible st L hvisL
  have hms := interleaving_multiset threads L hint
  constructor
  · rw [hemit]
    have h1 : Multiset.card (Multiset.ofList L) = L.length := Multiset.coe_card L
    rw [hms, multiset_card_sum_lengths, sum_lengths_const threads M hM, hN] at h1
    exact h1.symm
  · rw [hemit]
    exact hms

/-- Witness for C8: two threads of one visible message each, interleaved
first-thread-first, yield exactly 2×1 records and the union multiset. -/
theorem concurrent_interleaving_exact_count_witness :
    (emitAll stAllVisible [recNetA, recNetB]).length = 2 * 1 ∧
    Multiset.ofList (emitAll stAllVisible [recNetA, recNetB]) =
      ([[recNetA], [recNetB]].map Multiset.ofList).sum := by
  refine concurrent_interleaving_exact_count stAllVisible [[recNetA], [recNetB]]
    2 1 [recNetA, recNetB] rfl (by decide) (by decide) ?_
  refine Interleaving.step _ 0 recNetA [] _ rfl ?_
  refine Interleaving.step _ 1 recNetB [] _ rfl ?_
  apply Interleaving.nil
  intro t ht
  simp at ht
  exact ht

end Log

